import Mathlib

/-
Verification development for the agglomerated_neighborhoods repository.

Shallow Lean embeddings of:
  - the cache layer of src/cache_io.py (fingerprints, cache_valid,
    save_cache row emission, load_cache, df_to_adjacency,
    df_to_edge_scores);
  - the worker functions of src/mp_helpers.py (_pair_overlaps_area,
    _score_edge_pair_worker);
  - the OLS helper ols_r2 of src/utilities.py.

Conventions of the embedding:
  - Python floats carrying data values are modelled by `PFloat`: exact
    rationals extended with the IEEE special values inf, -inf and nan
    (rounding is abstracted away; special-value propagation is kept).
  - File-system effects (stat, reads) and the external geometry engine
    (shapely) and linear-algebra solver (np.linalg.lstsq) are modelled
    as explicit outcome parameters; a raised exception is an `Option`
    none / an `Except` error.
  - Python dicts are modelled as association lists with unique keys;
    Python sets as duplicate-free lists.
-/

/-! ## Fingerprint / cache metadata model (src/cache_io.py lines 22-71, 148-160) -/

/-- The dict produced by `_file_fingerprint`: resolved path plus stat size
and mtime, or nulls when stat raised. -/
structure FileFP where
  path : String
  size : Option Int
  mtime : Option ℚ
deriving DecidableEq

/-- The "params" sub-dict of `make_cache_key`. -/
structure CacheParams where
  buffer_feet : ℚ
  crs_epsg_feet : Option Int
  k_neighbors : Int
deriving DecidableEq

/-- The dict produced by `_tiles_signature`: tile count and content hash,
or nulls when neither identifier column exists. -/
structure TilesSig where
  n_tiles : Option Int
  keys_hash : Option String
deriving DecidableEq

/-- The metadata dict produced by `make_cache_key`. -/
structure CacheMeta where
  parcels : FileFP
  tiles : FileFP
  params : CacheParams
  tiles_sig : TilesSig
  algo_version : String
deriving DecidableEq

/-- `_file_fingerprint` (cache_io.py lines 22-32).  The OS `stat` call is an
explicit outcome: `some (size, mtime)` on success, `none` when it raises;
`resolve` models `Path.resolve`. -/
def file_fingerprint (path : String) (resolve : String → String)
    (st : Option (Int × ℚ)) : FileFP :=
  match st with
  | some szmt => { path := resolve path, size := some szmt.1, mtime := some szmt.2 }
  | none => { path := path, size := none, mtime := none }

/-- `_tiles_signature` (cache_io.py lines 35-50).  The two possible
identifier columns are explicit `Option` inputs (`none` models the column
access raising); `digest` models sha256 of the newline-joined list. -/
def tiles_signature (tile_key_col key_col : Option (List String))
    (digest : List String → String) : TilesSig :=
  match tile_key_col with
  | some ks =>
      { n_tiles := some (ks.length : Int)
      , keys_hash := some (digest (List.insertionSort (· ≤ ·) ks)) }
  | none =>
    match key_col with
    | some ks =>
        { n_tiles := some (ks.length : Int)
        , keys_hash := some (digest (List.insertionSort (· ≤ ·) ks)) }
    | none => { n_tiles := none, keys_hash := none }

/-- `cache_valid` (cache_io.py lines 148-160).  A `none` argument models a
non-dict value whose attribute access raises inside the `try`, which the
`except` turns into `False`. -/
def cache_valid : Option CacheMeta → Option CacheMeta → Bool
  | some c, some m =>
      decide (c.algo_version = m.algo_version) && decide (c.params = m.params)
      && decide (c.tiles_sig = m.tiles_sig)
      && decide (c.parcels.mtime = m.parcels.mtime)
      && decide (c.parcels.size = m.parcels.size)
      && decide (c.tiles.mtime = m.tiles.mtime)
      && decide (c.tiles.size = m.tiles.size)
  | _, _ => false

/-- Exactly the fields `cache_valid` compares (file paths are not among
them). -/
structure ComparedKey where
  algo_version : String
  params : CacheParams
  tiles_sig : TilesSig
  parcels_mtime : Option ℚ
  parcels_size : Option Int
  tiles_mtime : Option ℚ
  tiles_size : Option Int
deriving DecidableEq

/-- Project a metadata value onto the fields `cache_valid` compares. -/
def comparedKey (m : CacheMeta) : ComparedKey :=
  ⟨m.algo_version, m.params, m.tiles_sig,
   m.parcels.mtime, m.parcels.size, m.tiles.mtime, m.tiles.size⟩

/-- Replace the two file paths of a metadata value, leaving every other
field unchanged. -/
def setPaths (m : CacheMeta) (pp tp : String) : CacheMeta :=
  { m with parcels := { m.parcels with path := pp }
         , tiles := { m.tiles with path := tp } }

lemma cache_valid_some_iff (c m : CacheMeta) :
    cache_valid (some c) (some m) = true ↔ comparedKey c = comparedKey m := by
  simp only [cache_valid, comparedKey, Bool.and_eq_true, decide_eq_true_eq,
    ComparedKey.mk.injEq]
  tauto

lemma cache_valid_some_eq_false_iff (c m : CacheMeta) :
    cache_valid (some c) (some m) = false ↔ comparedKey c ≠ comparedKey m := by
  rw [ne_eq, ← cache_valid_some_iff c m]
  simp

/-! ## load_cache model (src/cache_io.py lines 133-145) -/

/-- State of one cache file on disk: absent, present but unreadable or
unparsable (reading raises), or present with parsed value `v`. -/
inductive FileState (α : Type) where
  | absent
  | corrupt
  | ok (v : α)
deriving DecidableEq

/-- Reading one optional cache file inside the `try` block: absent files
are skipped (`None`), corrupt files raise. -/
def readFile {α : Type} : FileState α → Except Unit (Option α)
  | .absent => .ok none
  | .corrupt => .error ()
  | .ok v => .ok (some v)

/-- What each file contributes if no exception interrupts the bundle. -/
def toOpt {α : Type} : FileState α → Option α
  | .absent => none
  | .corrupt => none
  | .ok v => some v

/-- The three cache file paths derived by `cache_paths`. -/
structure CachePaths where
  meta_path : String
  adj_path : String
  scores_path : String
deriving DecidableEq

/-- `cache_paths` (cache_io.py lines 74-81): creates the cache directory,
then derives the three file paths.  The `mkdir` call is an explicit
outcome: `none` models it raising (a permission error on an unwritable
parent, or the cache path existing as a regular file, which
`exist_ok=True` does not suppress). -/
def cache_paths (cache_dir prefx : String) (mkdir : Option Unit) : Option CachePaths :=
  match mkdir with
  | none => none
  | some _ =>
      some ⟨cache_dir ++ "/" ++ prefx ++ "_meta.json",
            cache_dir ++ "/" ++ prefx ++ "_adj.parquet",
            cache_dir ++ "/" ++ prefx ++ "_scores.parquet"⟩

/-- `load_cache` (cache_io.py lines 133-145): derive the cache paths —
the `cache_paths` call with its `mkdir` runs OUTSIDE the `try`, so its
failure propagates as a raised exception (`.error`) — then read meta,
the adjacency parquet and the scores parquet inside one `try`; an
exception inside the `try` yields `(None, None, None)`.  The three
`FileState`s are the states of the files at the derived paths. -/
def load_cache {M A S : Type} (cache_dir prefx : String) (mkdir : Option Unit)
    (meta : FileState M) (adj : FileState A) (scores : FileState S) :
    Except Unit (Option M × Option A × Option S) :=
  match cache_paths cache_dir prefx mkdir with
  | none => .error ()
  | some _ =>
    .ok (match readFile meta with
      | .error _ => (none, none, none)
      | .ok mm =>
        match readFile adj with
        | .error _ => (none, none, none)
        | .ok aa =>
          match readFile scores with
          | .error _ => (none, none, none)
          | .ok ss => (mm, aa, ss))

/-! ## Concrete metadata values used by witnesses and counterexamples -/

/-- A fully-populated fingerprint as produced when both stat calls succeed
and the tile-key column exists. -/
def fullMeta : CacheMeta :=
  { parcels := file_fingerprint "parcels.parquet" id (some (1000, 17))
  , tiles := file_fingerprint "tiles.parquet" id (some (2000, 23))
  , params := { buffer_feet := 50, crs_epsg_feet := some 2263, k_neighbors := 8 }
  , tiles_sig := tiles_signature (some ["t1", "t2"]) none (fun _ => "h")
  , algo_version := "2025-11-14a" }

/-- `fullMeta` with the parcels modification time shifted. -/
def fullMetaShifted : CacheMeta :=
  { fullMeta with parcels := { fullMeta.parcels with mtime := some 18 } }

/-- The degraded fingerprint produced when both stat calls raise and
neither tile identifier column exists. -/
def degMeta : CacheMeta :=
  { parcels := file_fingerprint "parcels.parquet" id none
  , tiles := file_fingerprint "tiles.parquet" id none
  , params := { buffer_feet := 50, crs_epsg_feet := some 2263, k_neighbors := 8 }
  , tiles_sig := tiles_signature none none (fun _ => "h")
  , algo_version := "2025-11-14a" }

/-! ## Claim C1 -/

/-- C1: `cache_valid` returns true iff algorithm version, parameter set,
tile-set signature and both file identities (size, mtime) are all equal;
the file paths are excluded from the comparison; changing any compared
field of a validating pair flips the result to false; and an exception
during the comparison (a non-dict argument) yields false. -/
theorem C1_cache_valid_strict_equality :
    (∀ c m : CacheMeta, cache_valid (some c) (some m) = true ↔
        comparedKey c = comparedKey m)
    ∧ (∀ c m : CacheMeta, ∀ pc pt qc qt : String,
        cache_valid (some (setPaths c pc pt)) (some (setPaths m qc qt)) =
          cache_valid (some c) (some m))
    ∧ (∀ c m m2 : CacheMeta, cache_valid (some c) (some m) = true →
        comparedKey m2 ≠ comparedKey m → cache_valid (some c) (some m2) = false)
    ∧ (∀ x : Option CacheMeta, cache_valid none x = false ∧ cache_valid x none = false) := by
  refine ⟨cache_valid_some_iff, ?_, ?_, ?_⟩
  · intro c m pc pt qc qt
    simp [cache_valid, setPaths]
  · intro c m m2 hvalid hne
    rw [cache_valid_some_eq_false_iff]
    rw [cache_valid_some_iff] at hvalid
    intro h
    exact hne (h ▸ hvalid ▸ rfl)
  · intro x
    constructor
    · rfl
    · cases x <;> rfl

/-- Witness for C1 at concrete metadata values. -/
theorem C1_cache_valid_strict_equality_witness :
    cache_valid (some fullMeta) (some fullMeta) = true
    ∧ cache_valid (some (setPaths fullMeta "a" "b")) (some (setPaths fullMeta "c" "d")) =
        cache_valid (some fullMeta) (some fullMeta)
    ∧ cache_valid (some fullMeta) (some fullMetaShifted) = false
    ∧ cache_valid none (some fullMeta) = false :=
  ⟨(C1_cache_valid_strict_equality.1 fullMeta fullMeta).mpr rfl,
   C1_cache_valid_strict_equality.2.1 fullMeta fullMeta "a" "b" "c" "d",
   C1_cache_valid_strict_equality.2.2.1 fullMeta fullMeta fullMetaShifted
     ((C1_cache_valid_strict_equality.1 fullMeta fullMeta).mpr rfl) (by decide),
   (C1_cache_valid_strict_equality.2.2.2 (some fullMeta)).1⟩

/-! ## Claim C2 -/

/-- C2 counterexample: the claim says a degraded current fingerprint is a
guaranteed miss against *every* cached fingerprint, but against a cached
fingerprint that is itself equally degraded (null sizes, null mtimes, null
tile signature) `cache_valid` returns true. -/
theorem C2_counterexample_degraded_cache_hit :
    cache_valid (some degMeta) (some degMeta) = true := by decide

/-- C2 (amended): a degraded current fingerprint (null size/mtime from a
failed stat, or null tile-set signature from missing identifier columns)
is a guaranteed miss against every cached fingerprint whose corresponding
fields are non-null, i.e. one recorded from a successful stat / an
existing identifier column; and the degraded shapes are exactly what
`_file_fingerprint` and `_tiles_signature` produce on failure. -/
theorem C2_degraded_fingerprint_forces_miss :
    (∀ c m : CacheMeta, m.parcels.size = none → m.parcels.mtime = none →
        (c.parcels.mtime ≠ none ∨ c.parcels.size ≠ none) →
        cache_valid (some c) (some m) = false)
    ∧ (∀ c m : CacheMeta, m.tiles.size = none → m.tiles.mtime = none →
        (c.tiles.mtime ≠ none ∨ c.tiles.size ≠ none) →
        cache_valid (some c) (some m) = false)
    ∧ (∀ c m : CacheMeta, m.tiles_sig = { n_tiles := none, keys_hash := none } →
        c.tiles_sig.n_tiles ≠ none → cache_valid (some c) (some m) = false)
    ∧ (∀ p r, file_fingerprint p r none = { path := p, size := none, mtime := none })
    ∧ (∀ d, tiles_signature none none d = { n_tiles := none, keys_hash := none }) := by
  refine ⟨?_, ?_, ?_, fun p r => rfl, fun d => rfl⟩
  · intro c m hsz hmt hc
    rw [cache_valid_some_eq_false_iff]
    intro h
    rcases hc with hc | hc
    · exact hc ((congrArg ComparedKey.parcels_mtime h).trans hmt)
    · exact hc ((congrArg ComparedKey.parcels_size h).trans hsz)
  · intro c m hsz hmt hc
    rw [cache_valid_some_eq_false_iff]
    intro h
    rcases hc with hc | hc
    · exact hc ((congrArg ComparedKey.tiles_mtime h).trans hmt)
    · exact hc ((congrArg ComparedKey.tiles_size h).trans hsz)
  · intro c m hsig hc
    rw [cache_valid_some_eq_false_iff]
    intro h
    exact hc (congrArg TilesSig.n_tiles ((congrArg ComparedKey.tiles_sig h).trans hsig))

/-- Witness for C2 (amended): the degraded fingerprint misses against the
fully-populated one in all three degraded components. -/
theorem C2_degraded_fingerprint_forces_miss_witness :
    cache_valid (some fullMeta) (some degMeta) = false :=
  C2_degraded_fingerprint_forces_miss.1 fullMeta degMeta rfl rfl (Or.inl (by decide))

/-! ## Claim C8 -/

/-- C8 counterexample: with the cache directory creatable, a missing meta
file beside readable parquet files makes `load_cache` return
`(None, df_adj, df_scores)` — not the all-null triple the claim requires
for any failure; and when the `mkdir` inside `cache_paths` raises (a
permission error, or the cache path existing as a regular file),
`load_cache` raises instead of returning null sentinels, contradicting
"never raises". -/
theorem C8_counterexample_missing_meta_not_all_null :
    load_cache ".cache" "init" (some ()) (FileState.absent : FileState ℕ)
        (FileState.ok 1) (FileState.ok 2) = .ok (none, some 1, some 2)
    ∧ (none, some 1, some 2) ≠
        ((none : Option ℕ), (none : Option ℕ), (none : Option ℕ))
    ∧ load_cache ".cache" "init" none (FileState.absent : FileState ℕ)
        (FileState.ok 1) (FileState.ok 2) = .error () := by
  refine ⟨rfl, ?_, rfl⟩
  simp

/-- C8 (amended): the `cache_paths` call with its `mkdir` runs before the
`try`, so its failure propagates — `load_cache` can raise after all; once
the paths are derived, any exception while reading (a corrupt/unreadable
file) yields the all-null triple; when no read raises, each component is
independently `None` if its file is missing and the parsed value
otherwise (so a missing meta file alone yields a null fingerprint next to
non-null data frames, and all files missing yields the all-null
triple). -/
theorem C8_load_cache_failure_semantics :
    (∀ (M A S : Type) (d p : String) (m : FileState M) (a : FileState A) (s : FileState S),
        load_cache d p none m a s = .error ())
    ∧ (∀ (M A S : Type) (d p : String) (m : FileState M) (a : FileState A) (s : FileState S),
        (m = .corrupt ∨ a = .corrupt ∨ s = .corrupt) →
        load_cache d p (some ()) m a s = .ok (none, none, none))
    ∧ (∀ (M A S : Type) (d p : String) (m : FileState M) (a : FileState A) (s : FileState S),
        m ≠ .corrupt → a ≠ .corrupt → s ≠ .corrupt →
        load_cache d p (some ()) m a s = .ok (toOpt m, toOpt a, toOpt s)) := by
  refine ⟨?_, ?_, ?_⟩
  · intro M A S d p m a s
    rfl
  · intro M A S d p m a s h
    cases m <;> cases a <;> cases s <;> simp_all [load_cache, cache_paths, readFile]
  · intro M A S d p m a s hm ha hs
    cases m <;> cases a <;> cases s <;> simp_all [load_cache, cache_paths, readFile, toOpt]

/-- Witness for C8 (amended) at concrete file states. -/
theorem C8_load_cache_failure_semantics_witness :
    load_cache ".cache" "init" (some ()) (FileState.corrupt : FileState ℕ)
        (FileState.ok 1) (FileState.ok 2) = .ok (none, none, none)
    ∧ load_cache ".cache" "init" (some ()) (FileState.ok 7 : FileState ℕ)
        (FileState.absent : FileState ℕ) (FileState.ok 2 : FileState ℕ) =
        .ok (some 7, none, some 2) :=
  ⟨C8_load_cache_failure_semantics.2.1 ℕ ℕ ℕ ".cache" "init" _ _ _ (Or.inl rfl),
   C8_load_cache_failure_semantics.2.2 ℕ ℕ ℕ ".cache" "init" _ _ _
     (by simp) (by simp) (by simp)⟩

/-! ## Adjacency serialization (src/cache_io.py lines 97-105, 163-171) -/

/-- A Python dict mapping tile id to a set of neighbor ids, modelled as an
association list whose values are duplicate-free lists. -/
abbrev Adjacency := List (String × List String)

/-- Membership in the adjacency relation: `b` is in the neighbor set the
dict associates with `a`. -/
def adjMem (adj : Adjacency) (a b : String) : Bool :=
  adj.any (fun e => decide (e.1 = a) && decide (b ∈ e.2))

/-- `adj.setdefault(a, set()).add(b)`: add `b` to the set at key `a`,
creating the entry if the key is absent. -/
def adjInsert : Adjacency → String → String → Adjacency
  | [], a, b => [(a, [b])]
  | e :: rest, a, b =>
    if e.1 = a then (e.1, if b ∈ e.2 then e.2 else e.2 ++ [b]) :: rest
    else e :: adjInsert rest a b

/-- `df_to_adjacency` (cache_io.py lines 163-171): `none` models a null
data frame; each row inserts both directions. -/
def df_to_adjacency : Option (List (String × String)) → Adjacency
  | none => []
  | some rows =>
      rows.foldl (fun m r => adjInsert (adjInsert m r.1 r.2) r.2 r.1) []

/-- The adjacency rows `save_cache` emits (cache_io.py lines 97-104): for
each entry and each neighbor, one row per pair with the strictly smaller
endpoint first. -/
def save_adj_rows (adjacency : Adjacency) : List (String × String) :=
  adjacency.flatMap (fun e =>
    (e.2.filter (fun b => decide (e.1 < b))).map (fun b => (e.1, b)))

lemma adjMem_nil (a b : String) : adjMem [] a b = false := rfl

lemma adjMem_iff (adj : Adjacency) (a b : String) :
    adjMem adj a b = true ↔ ∃ e ∈ adj, e.1 = a ∧ b ∈ e.2 := by
  simp [adjMem, List.any_eq_true]

lemma mem_insert_nbs (s : List String) (y b : String) :
    b ∈ (if y ∈ s then s else s ++ [y]) ↔ b ∈ s ∨ b = y := by
  split
  · next h =>
    constructor
    · exact Or.inl
    · rintro (hb | rfl)
      · exact hb
      · exact h
  · next h => simp [List.mem_append]

lemma adjMem_adjInsert (m : Adjacency) (x y a b : String) :
    adjMem (adjInsert m x y) a b = true ↔
      (adjMem m a b = true ∨ (a = x ∧ b = y)) := by
  rw [adjMem_iff, adjMem_iff]
  induction m with
  | nil =>
    simp only [adjInsert]
    constructor
    · rintro ⟨f, hf, hfa, hfb⟩
      rcases List.mem_singleton.mp hf with rfl
      simp only [List.mem_singleton] at hfb
      exact Or.inr ⟨hfa.symm, hfb⟩
    · rintro (⟨f, hf, _, _⟩ | ⟨rfl, rfl⟩)
      · exact absurd hf (List.not_mem_nil f)
      · exact ⟨(a, [b]), List.mem_singleton.mpr rfl, rfl, List.mem_singleton.mpr rfl⟩
  | cons e rest ih =>
    simp only [adjInsert]
    by_cases hx : e.1 = x
    · rw [if_pos hx]
      constructor
      · rintro ⟨f, hf, hfa, hfb⟩
        rcases List.mem_cons.mp hf with rfl | hf
        · rw [mem_insert_nbs] at hfb
          rcases hfb with hfb | rfl
          · exact Or.inl ⟨e, List.mem_cons_self e rest, hfa, hfb⟩
          · exact Or.inr ⟨hfa.symm.trans hx, rfl⟩
        · exact Or.inl ⟨f, List.mem_cons_of_mem e hf, hfa, hfb⟩
      · rintro (⟨f, hf, hfa, hfb⟩ | ⟨rfl, rfl⟩)
        · rcases List.mem_cons.mp hf with rfl | hf
          · exact ⟨(f.1, if y ∈ f.2 then f.2 else f.2 ++ [y]), List.mem_cons_self _ _, hfa,
              (mem_insert_nbs f.2 y b).mpr (Or.inl hfb)⟩
          · exact ⟨f, List.mem_cons_of_mem _ hf, hfa, hfb⟩
        · exact ⟨(e.1, if b ∈ e.2 then e.2 else e.2 ++ [b]), List.mem_cons_self _ _, hx,
            (mem_insert_nbs e.2 b b).mpr (Or.inr rfl)⟩
    · rw [if_neg hx]
      constructor
      · rintro ⟨f, hf, hfa, hfb⟩
        rcases List.mem_cons.mp hf with rfl | hf
        · exact Or.inl ⟨f, List.mem_cons_self _ _, hfa, hfb⟩
        · rcases ih.mp ⟨f, hf, hfa, hfb⟩ with h | h
          · rcases h with ⟨g, hg, hga, hgb⟩
            exact Or.inl ⟨g, List.mem_cons_of_mem _ hg, hga, hgb⟩
          · exact Or.inr h
      · rintro (⟨f, hf, hfa, hfb⟩ | h)
        · rcases List.mem_cons.mp hf with rfl | hf
          · exact ⟨f, List.mem_cons_self _ _, hfa, hfb⟩
          · rcases ih.mpr (Or.inl ⟨f, hf, hfa, hfb⟩) with ⟨g, hg, hga, hgb⟩
            exact ⟨g, List.mem_cons_of_mem _ hg, hga, hgb⟩
        · rcases ih.mpr (Or.inr h) with ⟨g, hg, hga, hgb⟩
          exact ⟨g, List.mem_cons_of_mem _ hg, hga, hgb⟩

lemma adjMem_foldl (rows : List (String × String)) (acc : Adjacency) (a b : String) :
    adjMem (rows.foldl (fun m r => adjInsert (adjInsert m r.1 r.2) r.2 r.1) acc) a b = true ↔
      (adjMem acc a b = true ∨
        ∃ r ∈ rows, (a = r.1 ∧ b = r.2) ∨ (a = r.2 ∧ b = r.1)) := by
  induction rows generalizing acc with
  | nil => simp
  | cons r rest ih =>
    rw [List.foldl_cons, ih, adjMem_adjInsert, adjMem_adjInsert]
    simp only [List.mem_cons]
    constructor
    · rintro (((h | h) | h) | ⟨r2, h2, h⟩)
      · exact Or.inl h
      · exact Or.inr ⟨r, Or.inl rfl, Or.inl h⟩
      · exact Or.inr ⟨r, Or.inl rfl, Or.inr h⟩
      · exact Or.inr ⟨r2, Or.inr h2, h⟩
    · rintro (h | ⟨r2, (rfl | h2), h⟩)
      · exact Or.inl (Or.inl (Or.inl h))
      · rcases h with h | h
        · exact Or.inl (Or.inl (Or.inr h))
        · exact Or.inl (Or.inr h)
      · exact Or.inr ⟨r2, h2, h⟩

lemma mem_save_adj_rows (adj : Adjacency) (x y : String) :
    (x, y) ∈ save_adj_rows adj ↔ (∃ e ∈ adj, e.1 = x ∧ y ∈ e.2) ∧ x < y := by
  simp only [save_adj_rows, List.mem_flatMap, List.mem_map, List.mem_filter,
    decide_eq_true_eq]
  constructor
  · rintro ⟨e, he, b, ⟨hb, hlt⟩, heq⟩
    rw [Prod.mk.injEq] at heq
    obtain ⟨rfl, rfl⟩ := heq
    exact ⟨⟨e, he, rfl, hb⟩, hlt⟩
  · rintro ⟨⟨e, he, rfl, hy⟩, hlt⟩
    exact ⟨e, he, y, ⟨hy, hlt⟩, rfl⟩

lemma adjMem_symm_of (adj : Adjacency)
    (hsym : ∀ e ∈ adj, ∀ b ∈ e.2, adjMem adj b e.1 = true)
    {a b : String} (h : adjMem adj a b = true) : adjMem adj b a = true := by
  rcases (adjMem_iff _ _ _).mp h with ⟨e, he, hea, heb⟩
  subst hea
  exact hsym e he b heb

lemma adjMem_irrefl_of (adj : Adjacency)
    (hirr : ∀ e ∈ adj, e.1 ∉ e.2) (a : String) : adjMem adj a a = false := by
  rw [Bool.eq_false_iff]
  intro h
  rcases (adjMem_iff _ _ _).mp h with ⟨e, he, hea, heb⟩
  refine hirr e he ?_
  rw [hea]
  exact heb

lemma adj_roundtrip (adj : Adjacency)
    (hsym : ∀ e ∈ adj, ∀ b ∈ e.2, adjMem adj b e.1 = true)
    (hirr : ∀ e ∈ adj, e.1 ∉ e.2) (a b : String) :
    adjMem (df_to_adjacency (some (save_adj_rows adj))) a b = adjMem adj a b := by
  rw [Bool.eq_iff_iff]
  simp only [df_to_adjacency]
  rw [adjMem_foldl]
  simp only [adjMem_nil, Bool.false_eq_true, false_or]
  constructor
  · rintro ⟨r, hr, ⟨h1, h2⟩ | ⟨h1, h2⟩⟩
    · obtain ⟨hmem, _⟩ := (mem_save_adj_rows adj r.1 r.2).mp hr
      subst h1; subst h2
      exact (adjMem_iff _ _ _).mpr hmem
    · obtain ⟨hmem, _⟩ := (mem_save_adj_rows adj r.1 r.2).mp hr
      subst h1; subst h2
      exact adjMem_symm_of adj hsym ((adjMem_iff _ _ _).mpr hmem)
  · intro h
    have hab : a ≠ b := by
      intro heq
      rw [heq, adjMem_irrefl_of adj hirr b] at h
      exact Bool.false_ne_true h
    rcases lt_or_gt_of_ne hab with hlt | hgt
    · refine ⟨(a, b), ?_, Or.inl ⟨rfl, rfl⟩⟩
      exact (mem_save_adj_rows adj a b).mpr ⟨(adjMem_iff _ _ _).mp h, hlt⟩
    · refine ⟨(b, a), ?_, Or.inr ⟨rfl, rfl⟩⟩
      exact (mem_save_adj_rows adj b a).mpr
        ⟨(adjMem_iff _ _ _).mp (adjMem_symm_of adj hsym h), hgt⟩

/-! ## Claim C9 -/

/-- C9 counterexample: the claim quantifies over every input row sequence,
but a row whose two endpoints are equal produces a self-loop: after
processing the row `("t", "t")`, tile `"t"` is in its own adjacency set. -/
theorem C9_counterexample_self_loop :
    adjMem (df_to_adjacency (some [("t", "t")])) "t" "t" = true := by decide

/-- C9 (amended): for every input row sequence the graph built by
`df_to_adjacency` is symmetric, and empty or null input yields an empty
graph; freedom from self-loops holds for every row sequence whose rows
have distinct endpoints (as the rows written by `save_cache` always do),
but not for arbitrary rows. -/
theorem C9_df_to_adjacency_symmetric_no_self_loops :
    (∀ rows a b, adjMem (df_to_adjacency (some rows)) a b =
        adjMem (df_to_adjacency (some rows)) b a)
    ∧ (∀ rows, (∀ r ∈ rows, r.1 ≠ r.2) →
        ∀ a, adjMem (df_to_adjacency (some rows)) a a = false)
    ∧ df_to_adjacency none = []
    ∧ df_to_adjacency (some []) = [] := by
  refine ⟨?_, ?_, rfl, rfl⟩
  · intro rows a b
    rw [Bool.eq_iff_iff]
    simp only [df_to_adjacency]
    rw [adjMem_foldl, adjMem_foldl]
    simp only [adjMem_nil, Bool.false_eq_true, false_or]
    constructor
    · rintro ⟨r, hr, h⟩
      exact ⟨r, hr, by tauto⟩
    · rintro ⟨r, hr, h⟩
      exact ⟨r, hr, by tauto⟩
  · intro rows hno a
    rw [Bool.eq_false_iff]
    intro h
    simp only [df_to_adjacency] at h
    rw [adjMem_foldl] at h
    rcases h with h | ⟨r, hr, ⟨h1, h2⟩ | ⟨h1, h2⟩⟩
    · rw [adjMem_nil] at h
      exact Bool.false_ne_true h
    · exact hno r hr (h1.symm.trans h2)
    · exact hno r hr (h2.symm.trans h1)

/-- Witness for C9 (amended) at a concrete row list. -/
theorem C9_df_to_adjacency_symmetric_no_self_loops_witness :
    adjMem (df_to_adjacency (some [("a", "b")])) "a" "a" = false
    ∧ adjMem (df_to_adjacency (some [("a", "b")])) "a" "b" =
        adjMem (df_to_adjacency (some [("a", "b")])) "b" "a" :=
  ⟨C9_df_to_adjacency_symmetric_no_self_loops.2.1 [("a", "b")] (by decide) "a",
   C9_df_to_adjacency_symmetric_no_self_loops.1 [("a", "b")] "a" "b"⟩

/-! ## Edge-score serialization (src/cache_io.py lines 107-130, 174-188) -/

/-- The three numeric fields of an edge score (r2 real, counts integer),
as coerced and persisted by `save_cache`. -/
structure EdgeScore where
  r2 : ℚ
  n_obs : Int
  n_sales : Int
deriving DecidableEq

/-- The edge-score dict keyed by a frozenset of two tile ids, modelled as
an association list whose keys are arbitrarily-ordered pairs; key equality
is unordered-pair equality (`sameEdge`). -/
abbrev EdgeScores := List ((String × String) × EdgeScore)

/-- One row of the scores parquet: tile_a, tile_b, r2, n_obs, n_sales. -/
abbrev ScoreRow := String × String × ℚ × Int × Int

/-- Equality of two pairs viewed as frozensets.  For pairs with equal
components this is exactly `frozenset([a, a]) == frozenset([c, d])`. -/
def sameEdge (k1 k2 : String × String) : Bool :=
  (decide (k1.1 = k2.1) && decide (k1.2 = k2.2))
    || (decide (k1.1 = k2.2) && decide (k1.2 = k2.1))

/-- `sorted(list(frozenset))` for a two-element key: the pair with its
components in increasing order. -/
def canonPair (k : String × String) : String × String :=
  if k.1 < k.2 then k else (k.2, k.1)

/-- The dict literal `df_to_edge_scores` stores for one row (the numeric
coercions are identities on already-typed values). -/
def scoreOfRow (r : ScoreRow) : EdgeScore := ⟨r.2.2.1, r.2.2.2.1, r.2.2.2.2⟩

/-- The score rows `save_cache` emits (cache_io.py lines 108-128): each
dict entry yields one row with the key's elements sorted; a key whose two
components coincide is a one-element frozenset, whose sorted list fails to
unpack into two names, and the entry is skipped. -/
def save_score_rows (edge_scores : EdgeScores) : List ScoreRow :=
  edge_scores.filterMap (fun kv =>
    if kv.1.1 = kv.1.2 then none
    else some ((canonPair kv.1).1, (canonPair kv.1).2, kv.2.r2, kv.2.n_obs, kv.2.n_sales))

/-- Dict assignment `out[frozenset([a, b])] = v`: overwrite the entry with
the same unordered key, else append. -/
def edgeInsert : EdgeScores → String × String → EdgeScore → EdgeScores
  | [], k, v => [(k, v)]
  | e :: rest, k, v =>
    if sameEdge e.1 k then (e.1, v) :: rest else e :: edgeInsert rest k v

/-- `df_to_edge_scores` (cache_io.py lines 174-188): `none` models a null
data frame; rows with an empty endpoint are skipped. -/
def df_to_edge_scores : Option (List ScoreRow) → EdgeScores
  | none => []
  | some rows =>
      rows.foldl (fun out r =>
        if r.1 = "" ∨ r.2.1 = "" then out
        else edgeInsert out (r.1, r.2.1) (scoreOfRow r)) []

/-- Dict lookup by frozenset key. -/
def lookupEdge (es : EdgeScores) (a b : String) : Option EdgeScore :=
  (es.find? (fun e => sameEdge e.1 (a, b))).map (fun e => e.2)

/-- The first row whose (non-empty) endpoints form the unordered pair
`{a, b}`, as an EdgeScore. -/
def findRows (rows : List ScoreRow) (a b : String) : Option EdgeScore :=
  (rows.find? (fun r =>
      !decide (r.1 = "") && !decide (r.2.1 = "") && sameEdge (r.1, r.2.1) (a, b))).map
    scoreOfRow

lemma sameEdge_iff (k1 k2 : String × String) :
    sameEdge k1 k2 = true ↔
      (k1.1 = k2.1 ∧ k1.2 = k2.2) ∨ (k1.1 = k2.2 ∧ k1.2 = k2.1) := by
  simp [sameEdge]

lemma sameEdge_swap_left (x y : String) (k : String × String) :
    sameEdge (y, x) k = sameEdge (x, y) k := by
  rw [Bool.eq_iff_iff, sameEdge_iff, sameEdge_iff]
  tauto

lemma sameEdge_comm (k j : String × String) : sameEdge k j = sameEdge j k := by
  rw [Bool.eq_iff_iff, sameEdge_iff, sameEdge_iff]
  constructor
  · rintro (⟨h1, h2⟩ | ⟨h1, h2⟩)
    · exact Or.inl ⟨h1.symm, h2.symm⟩
    · exact Or.inr ⟨h2.symm, h1.symm⟩
  · rintro (⟨h1, h2⟩ | ⟨h1, h2⟩)
    · exact Or.inl ⟨h1.symm, h2.symm⟩
    · exact Or.inr ⟨h2.symm, h1.symm⟩

lemma sameEdge_canonPair (k j : String × String) :
    sameEdge (canonPair k) j = sameEdge k j := by
  unfold canonPair
  split
  · rfl
  · exact sameEdge_swap_left k.1 k.2 j

lemma sameEdge_canonPair_right (j k : String × String) :
    sameEdge j (canonPair k) = sameEdge j k := by
  rw [sameEdge_comm, sameEdge_canonPair, sameEdge_comm]

lemma canonPair_fst_ne (k : String × String) (h1 : k.1 ≠ "") (h2 : k.2 ≠ "") :
    (canonPair k).1 ≠ "" := by
  unfold canonPair
  split
  · exact h1
  · exact h2

lemma canonPair_snd_ne (k : String × String) (h1 : k.1 ≠ "") (h2 : k.2 ≠ "") :
    (canonPair k).2 ≠ "" := by
  unfold canonPair
  split
  · exact h2
  · exact h1

lemma lookupEdge_nil (a b : String) : lookupEdge [] a b = none := rfl

lemma lookupEdge_cons (e : (String × String) × EdgeScore) (es : EdgeScores) (a b : String) :
    lookupEdge (e :: es) a b =
      if sameEdge e.1 (a, b) then some e.2 else lookupEdge es a b := by
  unfold lookupEdge
  cases h : sameEdge e.1 (a, b) <;> simp [List.find?_cons, h]

lemma findRows_nil (a b : String) : findRows [] a b = none := rfl

lemma findRows_cons_valid (r : ScoreRow) (rows : List ScoreRow) (a b : String)
    (hr1 : r.1 ≠ "") (hr2 : r.2.1 ≠ "") :
    findRows (r :: rows) a b =
      if sameEdge (r.1, r.2.1) (a, b) then some (scoreOfRow r) else findRows rows a b := by
  unfold findRows
  cases h : sameEdge (r.1, r.2.1) (a, b) <;> simp [List.find?_cons, h, hr1, hr2]

lemma edgeInsert_no_clash (out : EdgeScores) (k : String × String) (v : EdgeScore)
    (h : ∀ e ∈ out, sameEdge e.1 k = false) :
    edgeInsert out k v = out ++ [(k, v)] := by
  induction out with
  | nil => rfl
  | cons e rest ih =>
    have he := h e (List.mem_cons_self e rest)
    have step : edgeInsert (e :: rest) k v = e :: edgeInsert rest k v := by
      simp [edgeInsert, he]
    rw [step, ih (fun f hf => h f (List.mem_cons_of_mem e hf)), List.cons_append]

lemma lookupEdge_append_single (out : EdgeScores) (k : String × String) (v : EdgeScore)
    (a b : String) :
    lookupEdge (out ++ [(k, v)]) a b =
      (lookupEdge out a b).or (if sameEdge k (a, b) then some v else none) := by
  simp only [lookupEdge, List.find?_append]
  cases h : List.find? (fun e => sameEdge e.1 (a, b)) out with
  | none =>
    cases hk : sameEdge k (a, b) <;> simp [h, hk, List.find?_cons]
  | some e => simp [h]

lemma lookupEdge_foldl (rows : List ScoreRow) (a b : String) : ∀ acc : EdgeScores,
    (∀ r ∈ rows, r.1 ≠ "" ∧ r.2.1 ≠ "") →
    (∀ e ∈ acc, ∀ r ∈ rows, sameEdge e.1 (r.1, r.2.1) = false) →
    rows.Pairwise (fun r1 r2 => sameEdge (r1.1, r1.2.1) (r2.1, r2.2.1) = false) →
    lookupEdge (rows.foldl (fun out r =>
        if r.1 = "" ∨ r.2.1 = "" then out
        else edgeInsert out (r.1, r.2.1) (scoreOfRow r)) acc) a b =
      (lookupEdge acc a b).or (findRows rows a b) := by
  induction rows with
  | nil =>
    intro acc _ _ _
    simp [findRows]
  | cons r rest ih =>
    intro acc hval hacc hrows
    obtain ⟨hr1, hr2⟩ := hval r (List.mem_cons_self r rest)
    rw [List.foldl_cons, if_neg (by tauto : ¬(r.1 = "" ∨ r.2.1 = ""))]
    rw [edgeInsert_no_clash acc (r.1, r.2.1) (scoreOfRow r)
      (fun e he => hacc e he r (List.mem_cons_self r rest))]
    rw [ih (acc ++ [((r.1, r.2.1), scoreOfRow r)])
      (fun r2 h2 => hval r2 (List.mem_cons_of_mem r h2))
      (by
        intro e he r2 h2
        rcases List.mem_append.mp he with he | he
        · exact hacc e he r2 (List.mem_cons_of_mem r h2)
        · rcases List.mem_singleton.mp he with rfl
          exact (List.pairwise_cons.mp hrows).1 r2 h2)
      (List.pairwise_cons.mp hrows).2]
    rw [lookupEdge_append_single, findRows_cons_valid r rest a b hr1 hr2]
    cases hc : sameEdge (r.1, r.2.1) (a, b) <;>
      cases hL : lookupEdge acc a b <;> simp [hc, hL]

lemma save_score_rows_map (es : EdgeScores) (hkeys : ∀ kv ∈ es, kv.1.1 ≠ kv.1.2) :
    save_score_rows es = es.map (fun kv =>
      ((canonPair kv.1).1, (canonPair kv.1).2, kv.2.r2, kv.2.n_obs, kv.2.n_sales)) := by
  induction es with
  | nil => rfl
  | cons kv rest ih =>
    have h := hkeys kv (List.mem_cons_self kv rest)
    have ih2 := ih (fun kv2 h2 => hkeys kv2 (List.mem_cons_of_mem kv h2))
    simp only [save_score_rows, List.filterMap_cons, List.map_cons, h, if_false]
    simp only [save_score_rows] at ih2
    rw [ih2]

lemma save_score_rows_valid (es : EdgeScores)
    (hkeys : ∀ kv ∈ es, kv.1.1 ≠ kv.1.2 ∧ kv.1.1 ≠ "" ∧ kv.1.2 ≠ "") :
    ∀ r ∈ save_score_rows es, r.1 ≠ "" ∧ r.2.1 ≠ "" := by
  rw [save_score_rows_map es (fun kv hk => (hkeys kv hk).1)]
  intro r hr
  rcases List.mem_map.mp hr with ⟨kv, hkv, rfl⟩
  obtain ⟨_, h1, h2⟩ := hkeys kv hkv
  exact ⟨canonPair_fst_ne kv.1 h1 h2, canonPair_snd_ne kv.1 h1 h2⟩

lemma save_score_rows_pairwise (es : EdgeScores)
    (hkeys : ∀ kv ∈ es, kv.1.1 ≠ kv.1.2)
    (hdist : es.Pairwise (fun e1 e2 => sameEdge e1.1 e2.1 = false)) :
    (save_score_rows es).Pairwise
      (fun r1 r2 => sameEdge (r1.1, r1.2.1) (r2.1, r2.2.1) = false) := by
  rw [save_score_rows_map es hkeys]
  refine List.Pairwise.map _ ?_ hdist
  intro e1 e2 h12
  show sameEdge ((canonPair e1.1).1, (canonPair e1.1).2)
      ((canonPair e2.1).1, (canonPair e2.1).2) = false
  rw [Prod.mk.eta, Prod.mk.eta, sameEdge_canonPair, sameEdge_canonPair_right]
  exact h12

lemma findRows_save (es : EdgeScores)
    (hkeys : ∀ kv ∈ es, kv.1.1 ≠ kv.1.2 ∧ kv.1.1 ≠ "" ∧ kv.1.2 ≠ "") (a b : String) :
    findRows (save_score_rows es) a b = lookupEdge es a b := by
  induction es with
  | nil => rfl
  | cons kv rest ih =>
    obtain ⟨hne, h1, h2⟩ := hkeys kv (List.mem_cons_self kv rest)
    have hrow : save_score_rows (kv :: rest) =
        ((canonPair kv.1).1, (canonPair kv.1).2, kv.2.r2, kv.2.n_obs, kv.2.n_sales)
          :: save_score_rows rest := by
      simp only [save_score_rows, List.filterMap_cons, hne, if_false]
    rw [hrow, findRows_cons_valid _ _ a b (canonPair_fst_ne kv.1 h1 h2)
      (canonPair_snd_ne kv.1 h1 h2), lookupEdge_cons]
    have hs : sameEdge ((canonPair kv.1).1, (canonPair kv.1).2) (a, b) =
        sameEdge kv.1 (a, b) := by
      rw [Prod.mk.eta, sameEdge_canonPair]
    rw [hs]
    have hscore : scoreOfRow
        ((canonPair kv.1).1, (canonPair kv.1).2, kv.2.r2, kv.2.n_obs, kv.2.n_sales) = kv.2 := rfl
    rw [hscore, ih (fun kv2 hk => hkeys kv2 (List.mem_cons_of_mem kv hk))]

/-! ## Claim C3 -/

/-- A score table whose single key contains an empty-string tile id. -/
def esBad : EdgeScores := [(("", "x"), ⟨(1 : ℚ)/2, 3, 4⟩)]

/-- C3 counterexample: the key `frozenset(["", "x"])` is a two-element
unordered pair of distinct tile ids, yet after saving, `df_to_edge_scores`
skips the row because one endpoint is the empty string, so the round trip
loses the entry instead of reproducing it. -/
theorem C3_counterexample_empty_tile_id :
    lookupEdge esBad "" "x" = some ⟨(1 : ℚ)/2, 3, 4⟩
    ∧ lookupEdge (df_to_edge_scores (some (save_score_rows esBad))) "" "x" = none := by
  constructor
  · rfl
  · have hlt : ("" : String) < "x" :=
      String.lt_iff_toList_lt.mpr (List.nil_lt_cons 'x' [])
    have h1 : save_score_rows esBad = [("", "x", (1 : ℚ)/2, 3, 4)] := by
      rw [save_score_rows_map esBad (by decide)]
      have hc : canonPair ("", "x") = ("", "x") := by
        unfold canonPair
        rw [if_pos hlt]
      simp [esBad, hc]
    have h2 : df_to_edge_scores (some [("", "x", (1 : ℚ)/2, 3, 4)]) = [] := by
      simp [df_to_edge_scores]
    rw [h1, h2, lookupEdge_nil]

/-- C3 (amended): for every symmetric, self-loop-free adjacency mapping
and every edge-score table keyed by two-element unordered pairs of
distinct **non-empty** tile ids (no two entries sharing an unordered key),
saving with `save_cache` and converting the rows back with
`df_to_adjacency` and `df_to_edge_scores` reproduces the adjacency
relation and the (r2, n_obs, n_sales) values exactly, regardless of the
insertion order of the two endpoints within any pair; with an empty-string
tile id the score entry is dropped instead. -/
theorem C3_cache_roundtrip :
    ∀ (adj : Adjacency) (es : EdgeScores),
      (∀ e ∈ adj, ∀ b ∈ e.2, adjMem adj b e.1 = true) →
      (∀ e ∈ adj, e.1 ∉ e.2) →
      (∀ kv ∈ es, kv.1.1 ≠ kv.1.2 ∧ kv.1.1 ≠ "" ∧ kv.1.2 ≠ "") →
      es.Pairwise (fun e1 e2 => sameEdge e1.1 e2.1 = false) →
      (∀ a b, adjMem (df_to_adjacency (some (save_adj_rows adj))) a b = adjMem adj a b)
      ∧ (∀ a b, lookupEdge (df_to_edge_scores (some (save_score_rows es))) a b =
          lookupEdge es a b) := by
  intro adj es hsym hirr hkeys hdist
  refine ⟨adj_roundtrip adj hsym hirr, ?_⟩
  intro a b
  simp only [df_to_edge_scores]
  rw [lookupEdge_foldl (save_score_rows es) a b []
    (save_score_rows_valid es hkeys)
    (fun e he => absurd he (List.not_mem_nil e))
    (save_score_rows_pairwise es (fun kv hk => (hkeys kv hk).1) hdist)]
  rw [lookupEdge_nil, Option.none_or]
  exact findRows_save es hkeys a b

/-- A symmetric, loop-free adjacency and a score table whose key is stored
in reversed order relative to its canonical serialization. -/
def adjW : Adjacency := [("a", ["b"]), ("b", ["a"])]

/-- Concrete edge-score table for the C3 witness. -/
def esW : EdgeScores := [(("b", "a"), ⟨(1 : ℚ)/2, 5, 4⟩)]

/-- Witness for C3 (amended) at concrete inputs. -/
theorem C3_cache_roundtrip_witness :
    adjMem (df_to_adjacency (some (save_adj_rows adjW))) "a" "b" = adjMem adjW "a" "b"
    ∧ lookupEdge (df_to_edge_scores (some (save_score_rows esW))) "a" "b" =
        lookupEdge esW "a" "b" :=
  ⟨(C3_cache_roundtrip adjW esW (by decide) (by decide) (by decide) (by decide)).1 "a" "b",
   (C3_cache_roundtrip adjW esW (by decide) (by decide) (by decide) (by decide)).2 "a" "b"⟩

/-! ## PFloat: Python/numpy float values with IEEE special values.
Arithmetic on finite values is exact (rounding is abstracted away);
propagation of inf, -inf and nan follows IEEE as numpy implements it. -/

/-- A Python float: an exact rational, or one of the special values. -/
inductive PFloat where
  | fin (q : ℚ)
  | inf
  | ninf
  | nan
deriving DecidableEq

def PFloat.neg : PFloat → PFloat
  | .fin q => .fin (-q)
  | .inf => .ninf
  | .ninf => .inf
  | .nan => .nan

def PFloat.add : PFloat → PFloat → PFloat
  | .nan, _ => .nan
  | _, .nan => .nan
  | .inf, .ninf => .nan
  | .ninf, .inf => .nan
  | .inf, _ => .inf
  | _, .inf => .inf
  | .ninf, _ => .ninf
  | _, .ninf => .ninf
  | .fin a, .fin b => .fin (a + b)

def PFloat.sub (x y : PFloat) : PFloat := x.add y.neg

def PFloat.mul : PFloat → PFloat → PFloat
  | .nan, _ => .nan
  | _, .nan => .nan
  | .fin a, .fin b => .fin (a * b)
  | .inf, .fin b => if b = 0 then .nan else if 0 < b then .inf else .ninf
  | .fin a, .inf => if a = 0 then .nan else if 0 < a then .inf else .ninf
  | .ninf, .fin b => if b = 0 then .nan else if 0 < b then .ninf else .inf
  | .fin a, .ninf => if a = 0 then .nan else if 0 < a then .ninf else .inf
  | .inf, .inf => .inf
  | .inf, .ninf => .ninf
  | .ninf, .inf => .ninf
  | .ninf, .ninf => .inf

def PFloat.div : PFloat → PFloat → PFloat
  | .nan, _ => .nan
  | _, .nan => .nan
  | .fin a, .fin b =>
      if b = 0 then (if a = 0 then .nan else if 0 < a then .inf else .ninf)
      else .fin (a / b)
  | .inf, .fin b => if 0 ≤ b then .inf else .ninf
  | .ninf, .fin b => if 0 ≤ b then .ninf else .inf
  | .fin _, .inf => .fin 0
  | .fin _, .ninf => .fin 0
  | .inf, .inf => .nan
  | .inf, .ninf => .nan
  | .ninf, .inf => .nan
  | .ninf, .ninf => .nan

/-- `x ** 2`. -/
def PFloat.sq (x : PFloat) : PFloat := x.mul x

/-- Python `<` on floats: any comparison with nan is false. -/
def PFloat.lt : PFloat → PFloat → Bool
  | .nan, _ => false
  | _, .nan => false
  | .fin a, .fin b => decide (a < b)
  | .fin _, .inf => true
  | .fin _, .ninf => false
  | .inf, _ => false
  | .ninf, .ninf => false
  | .ninf, _ => true

/-- Python `<=` on floats: any comparison with nan is false. -/
def PFloat.le : PFloat → PFloat → Bool
  | .nan, _ => false
  | _, .nan => false
  | .fin a, .fin b => decide (a ≤ b)
  | .fin _, .inf => true
  | .fin _, .ninf => false
  | .inf, .inf => true
  | .inf, _ => false
  | .ninf, _ => true

/-- `np.isfinite`. -/
def PFloat.isfinite : PFloat → Bool
  | .fin _ => true
  | _ => false

/-- Python `min(a, b)`: returns `b` exactly when `b < a`. -/
def pymin (a b : PFloat) : PFloat := if PFloat.lt b a then b else a

/-- Python `max(a, b)`: returns `b` exactly when `a < b`. -/
def pymax (a b : PFloat) : PFloat := if PFloat.lt a b then b else a

/-- `np.sum` over a vector. -/
def sumP (l : List PFloat) : PFloat := l.foldl PFloat.add (.fin 0)

/-- Row-vector dot product, as in `X_.dot(beta)`. -/
def dotP (xs ys : List PFloat) : PFloat := sumP (List.zipWith PFloat.mul xs ys)

/-- `y.mean()`. -/
def meanP (l : List PFloat) : PFloat := (sumP l).div (.fin (l.length : ℚ))

/-- `np.sum((y - y.mean()) ** 2)`. -/
def ssTotP (y : List PFloat) : PFloat := sumP (y.map (fun v => (v.sub (meanP y)).sq))

/-- `np.sum((y - yhat) ** 2)`. -/
def ssResP (y yhat : List PFloat) : PFloat :=
  sumP ((y.zip yhat).map (fun p => (p.1.sub p.2).sq))

/-! ## Edge-scoring worker (src/mp_helpers.py lines 64-107) -/

/-- One row of the slim parcels frame; `none` models a missing (NaN)
entry in the corresponding column. -/
structure ParcelRow where
  adj_sale_price : Option PFloat
  market_value_proxy : Option PFloat
  built_area_sqft : Option PFloat
  land_area_sqft : Option PFloat
deriving DecidableEq

/-- The slim parcels frame: which of the four columns exist, plus the
rows. -/
structure ParcelsDF where
  has_adj_sale_price : Bool
  has_market_value_proxy : Bool
  has_built_area_sqft : Bool
  has_land_area_sqft : Bool
  rows : List ParcelRow
deriving DecidableEq

/-- pandas missing-value test: an absent entry or a stored NaN is NA. -/
def isNA : Option PFloat → Bool
  | none => true
  | some v => decide (v = PFloat.nan)

/-- `mapping.get(t, set()) or set()`. -/
def tileIdxs (mapping : List (String × List Nat)) (t : String) : List Nat :=
  ((mapping.find? (fun e => decide (e.1 = t))).map (fun e => e.2)).getD []

/-- `list(mapping.get(a, set()) | mapping.get(b, set()))`: the union of
the two index sets (duplicate-free). -/
def gatherIdxs (mapping : List (String × List Nat)) (a b : String) : List Nat :=
  (tileIdxs mapping a ++ tileIdxs mapping b).dedup

/-- `df.iloc[idxs]` when every index is in range. -/
def subRows (df : ParcelsDF) (idxs : List Nat) : List ParcelRow :=
  idxs.filterMap (fun i => df.rows[i]?)

/-- `int(sub["adj_sale_price"].notna().sum()) if "adj_sale_price" in
sub.columns else 0`. -/
def nSales (df : ParcelsDF) (sub : List ParcelRow) : Int :=
  if df.has_adj_sale_price then
    ((sub.filter (fun r => !isNA r.adj_sale_price)).length : Int)
  else 0

/-- `sub[cols].astype(float).dropna()`: the rows with all three
regression fields present. -/
def completeRows (sub : List ParcelRow) : List ParcelRow :=
  sub.filter (fun r =>
    !isNA r.market_value_proxy && !isNA r.built_area_sqft && !isNA r.land_area_sqft)

/-- The inner `try` of the worker (mp_helpers.py lines 88-95): solve the
least-squares system, form predictions and R^2; a raised solver exception
or a shape mismatch of the returned coefficients (which would make
`X_.dot(beta)` raise) yields 0.0. -/
def workerFitR2 (lstsq : List (List PFloat) → List PFloat → Option (List PFloat))
    (y : List PFloat) (Xd : List (List PFloat)) : PFloat :=
  match lstsq Xd y with
  | none => .fin 0
  | some beta =>
    if beta.length = 3 then
      (if (ssTotP y).le (.fin 0) then .fin 0
       else (PFloat.fin 1).sub
         ((ssResP y (Xd.map (fun row => dotP row beta))).div (ssTotP y)))
    else .fin 0

/-- `_score_edge_pair_worker` (mp_helpers.py lines 64-107).  The least
squares solver is an explicit outcome parameter (`none` models
`np.linalg.lstsq` raising); an out-of-range gathered index models
`df.iloc` raising, absorbed by the outer `except` into the safe default. -/
def score_edge_pair_worker (df : ParcelsDF) (mapping : List (String × List Nat))
    (lstsq : List (List PFloat) → List PFloat → Option (List PFloat))
    (pair : String × String) : String × String × PFloat × Int × Int :=
  let idxs := gatherIdxs mapping pair.1 pair.2
  if idxs = [] then (pair.1, pair.2, .fin 0, 0, 0)
  else if ¬ (∀ i ∈ idxs, i < df.rows.length) then (pair.1, pair.2, .fin 0, 0, 0)
  else
    let sub := subRows df idxs
    let ns := nSales df sub
    if ns < 3 then (pair.1, pair.2, .fin 0, (sub.length : Int), ns)
    else if ¬ (df.has_market_value_proxy ∧ df.has_built_area_sqft ∧ df.has_land_area_sqft) then
      (pair.1, pair.2, .fin 0, (sub.length : Int), ns)
    else
      let complete := completeRows sub
      if complete.length < 3 then (pair.1, pair.2, .fin 0, (sub.length : Int), ns)
      else
        let y := complete.map (fun r => r.market_value_proxy.getD PFloat.nan)
        let Xd := complete.map (fun r =>
          [PFloat.fin 1, r.built_area_sqft.getD PFloat.nan, r.land_area_sqft.getD PFloat.nan])
        let r2f := workerFitR2 lstsq y Xd
        let r2g := if ¬ r2f.isfinite then PFloat.fin 0 else r2f
        (pair.1, pair.2, pymax (pymin r2g (PFloat.fin 1)) (PFloat.fin (-1)),
         (complete.length : Int), ns)

/-- `ols_r2` (src/utilities.py lines 42-58).  Only the solver call is
guarded by a `try`; the rest of the pipeline is identical numpy code to
the worker's inline computation. -/
def ols_r2 (lstsq : List (List PFloat) → List PFloat → Option (List PFloat))
    (y : List PFloat) (X : List (List PFloat)) : PFloat :=
  let Xd := X.map (fun row => PFloat.fin 1 :: row)
  match lstsq Xd y with
  | none => .fin 0
  | some beta =>
    let yhat := Xd.map (fun row => dotP row beta)
    let ss_res := ssResP y yhat
    let ss_tot := ssTotP y
    if ss_tot.le (.fin 0) then .fin 0
    else
      let r2 := (PFloat.fin 1).sub (ss_res.div ss_tot)
      if ¬ r2.isfinite then .fin 0
      else pymax (pymin r2 (PFloat.fin 1)) (PFloat.fin (-1))

/-! ## Adjacency worker (src/mp_helpers.py lines 50-61) -/

/-- Python list indexing: negative indices wrap once; anything still out
of range raises (`none`). -/
def pyIndex {G : Type} (xs : List G) (i : Int) : Option G :=
  let n : Int := (xs.length : Int)
  let j := if i < 0 then i + n else i
  if 0 ≤ j ∧ j < n then xs[j.toNat]? else none

/-- `_pair_overlaps_area` (mp_helpers.py lines 50-61).  The geometry
engine is abstract: `intersectF` returns `none` when `.intersection`
raises, and `areaF` returns `none` when the result has no `area`
attribute (then `getattr(inter, "area", 0.0)` yields 0.0). -/
def pair_overlaps_area {G : Type} (geoms : List G) (intersectF : G → G → Option G)
    (areaF : G → Option PFloat) (p : Int × Int) : Option (Int × Int) :=
  match pyIndex geoms p.1, pyIndex geoms p.2 with
  | some gi, some gj =>
    match intersectF gi gj with
    | some inter =>
        if PFloat.lt (PFloat.fin 0) ((areaF inter).getD (PFloat.fin 0)) then some p
        else none
    | none => none
  | _, _ => none

lemma pair_overlaps_area_def {G : Type} (geoms : List G) (intersectF : G → G → Option G)
    (areaF : G → Option PFloat) (i j : Int) :
    pair_overlaps_area geoms intersectF areaF (i, j) =
      match pyIndex geoms i, pyIndex geoms j with
      | some gi, some gj =>
        match intersectF gi gj with
        | some inter =>
            if PFloat.lt (PFloat.fin 0) ((areaF inter).getD (PFloat.fin 0)) then some (i, j)
            else none
        | none => none
      | _, _ => none := rfl

/-! ## Claim C4 -/

/-- C4: the adjacency worker returns the pair iff both (Python-style)
indexings succeed, the intersection succeeds, and its area attribute
(defaulting to 0.0 when absent) is strictly positive; a zero-or-negative
area, a failed indexing, a raised intersection, or a missing area
attribute all yield no pair instead of raising (the function is total by
construction). -/
theorem C4_pair_overlaps_area_semantics :
    ∀ (G : Type) (geoms : List G) (intersectF : G → G → Option G)
      (areaF : G → Option PFloat) (i j : Int),
      (pair_overlaps_area geoms intersectF areaF (i, j) = some (i, j) ↔
        ∃ gi gj inter, pyIndex geoms i = some gi ∧ pyIndex geoms j = some gj ∧
          intersectF gi gj = some inter ∧
          PFloat.lt (PFloat.fin 0) ((areaF inter).getD (PFloat.fin 0)) = true)
      ∧ (∀ r, pair_overlaps_area geoms intersectF areaF (i, j) = some r → r = (i, j))
      ∧ (∀ gi gj inter, pyIndex geoms i = some gi → pyIndex geoms j = some gj →
          intersectF gi gj = some inter →
          PFloat.lt (PFloat.fin 0) ((areaF inter).getD (PFloat.fin 0)) = false →
          pair_overlaps_area geoms intersectF areaF (i, j) = none)
      ∧ (pyIndex geoms i = none ∨ pyIndex geoms j = none →
          pair_overlaps_area geoms intersectF areaF (i, j) = none)
      ∧ (∀ gi gj, pyIndex geoms i = some gi → pyIndex geoms j = some gj →
          intersectF gi gj = none →
          pair_overlaps_area geoms intersectF areaF (i, j) = none)
      ∧ (∀ gi gj inter, pyIndex geoms i = some gi → pyIndex geoms j = some gj →
          intersectF gi gj = some inter → areaF inter = none →
          pair_overlaps_area geoms intersectF areaF (i, j) = none) := by
  intro G geoms intersectF areaF i j
  refine ⟨⟨?_, ?_⟩, ?_, ?_, ?_, ?_, ?_⟩
  · intro h
    rw [pair_overlaps_area_def] at h
    cases hI : pyIndex geoms i with
    | none => simp [hI] at h
    | some gi =>
      cases hJ : pyIndex geoms j with
      | none => simp [hI, hJ] at h
      | some gj =>
        simp only [hI, hJ] at h
        cases hK : intersectF gi gj with
        | none => simp [hK] at h
        | some inter =>
          simp only [hK] at h
          by_cases hA : PFloat.lt (PFloat.fin 0) ((areaF inter).getD (PFloat.fin 0)) = true
          · exact ⟨gi, gj, inter, rfl, rfl, hK, hA⟩
          · rw [if_neg hA] at h; simp at h
  · rintro ⟨gi, gj, inter, hI, hJ, hK, hA⟩
    rw [pair_overlaps_area_def]
    simp only [hI, hJ, hK]
    rw [if_pos hA]
  · intro r h
    rw [pair_overlaps_area_def] at h
    cases hI : pyIndex geoms i with
    | none => simp [hI] at h
    | some gi =>
      cases hJ : pyIndex geoms j with
      | none => simp [hI, hJ] at h
      | some gj =>
        simp only [hI, hJ] at h
        cases hK : intersectF gi gj with
        | none => simp [hK] at h
        | some inter =>
          simp only [hK] at h
          by_cases hA : PFloat.lt (PFloat.fin 0) ((areaF inter).getD (PFloat.fin 0)) = true
          · rw [if_pos hA] at h
            exact (Option.some.injEq _ _ ▸ h).symm
          · rw [if_neg hA] at h; simp at h
  · intro gi gj inter hI hJ hK hA
    rw [pair_overlaps_area_def]
    simp only [hI, hJ, hK]
    rw [if_neg (by rw [hA]; exact Bool.false_ne_true)]
  · rintro (h | h)
    · rw [pair_overlaps_area_def]
      simp [h]
    · rw [pair_overlaps_area_def]
      cases hI : pyIndex geoms i <;> simp [hI, h]
  · intro gi gj hI hJ hK
    rw [pair_overlaps_area_def]
    simp only [hI, hJ, hK]
  · intro gi gj inter hI hJ hK hA
    rw [pair_overlaps_area_def]
    simp only [hI, hJ, hK, hA]
    rw [if_neg ?hne]
    case hne =>
      show ¬ PFloat.lt (PFloat.fin 0) ((none : Option PFloat).getD (PFloat.fin 0)) = true
      decide

/-- Witness for C4 at a concrete two-geometry configuration. -/
theorem C4_pair_overlaps_area_semantics_witness :
    pair_overlaps_area [0, 1] (fun x y : Int => some (x + y))
        (fun _ => some (PFloat.fin 1)) (0, 1) = some (0, 1)
    ∧ pair_overlaps_area [0, 1] (fun x y : Int => some (x + y))
        (fun _ => some (PFloat.fin 0)) (0, 1) = none
    ∧ pair_overlaps_area [0, 1] (fun x y : Int => some (x + y))
        (fun _ => some (PFloat.fin 1)) (0, 5) = none :=
  ⟨((C4_pair_overlaps_area_semantics Int [0, 1] (fun x y => some (x + y))
      (fun _ => some (PFloat.fin 1)) 0 1).1).mpr
        ⟨0, 1, 1, by decide, by decide, rfl, by decide⟩,
   (C4_pair_overlaps_area_semantics Int [0, 1] (fun x y => some (x + y))
      (fun _ => some (PFloat.fin 0)) 0 1).2.2.1 0 1 1 (by decide) (by decide) rfl (by decide),
   (C4_pair_overlaps_area_semantics Int [0, 1] (fun x y => some (x + y))
      (fun _ => some (PFloat.fin 1)) 0 5).2.2.2.1 (Or.inr (by decide))⟩

/-! ## Claim C7 -/

/-- C7: both workers are pure functions of their input pair and the
read-only payload (they are Lean functions of exactly those arguments),
and mapping either worker over any permutation of the work list and
collecting the results — as a set of pairs for the adjacency worker, as a
multiset of result tuples for the scoring worker — yields the same
collection, so the outcome is independent of evaluation order and worker
count. -/
theorem C7_determinism_order_independence :
    (∀ (G : Type) (geoms : List G) (intersectF : G → G → Option G)
        (areaF : G → Option PFloat) (l1 l2 : List (Int × Int)), l1.Perm l2 →
        (l1.filterMap (pair_overlaps_area geoms intersectF areaF)).toFinset =
          (l2.filterMap (pair_overlaps_area geoms intersectF areaF)).toFinset)
    ∧ (∀ (df : ParcelsDF) (mapping : List (String × List Nat))
        (lstsq : List (List PFloat) → List PFloat → Option (List PFloat))
        (w1 w2 : List (String × String)), w1.Perm w2 →
        (w1.map (score_edge_pair_worker df mapping lstsq) :
            Multiset (String × String × PFloat × Int × Int)) =
          (w2.map (score_edge_pair_worker df mapping lstsq) :
            Multiset (String × String × PFloat × Int × Int))) := by
  constructor
  · intro G geoms iF aF l1 l2 hp
    exact List.toFinset_eq_of_perm _ _ (hp.filterMap _)
  · intro df mapping lstsq w1 w2 hp
    exact Multiset.coe_eq_coe.mpr (hp.map _)

/-! ## Concrete worker inputs used by witnesses -/

/-- A parcel row with all four fields present. -/
def rowW : ParcelRow :=
  ⟨some (.fin 100), some (.fin 10), some (.fin 1), some (.fin 2)⟩

/-- A parcels frame with all columns and three complete rows. -/
def dfW : ParcelsDF := ⟨true, true, true, true, [rowW, rowW, rowW]⟩

/-- A tile-to-parcel-indices mapping covering the three rows. -/
def mapW : List (String × List Nat) := [("A", [0, 1]), ("B", [2])]

/-- Witness for C7 at concrete inputs. -/
theorem C7_determinism_order_independence_witness :
    ([((0 : Int), (1 : Int)), (1, 0)].filterMap
        (pair_overlaps_area [0, 1] (fun x y : Int => some (x + y))
          (fun _ => some (PFloat.fin 1)))).toFinset =
      ([((1 : Int), (0 : Int)), (0, 1)].filterMap
        (pair_overlaps_area [0, 1] (fun x y : Int => some (x + y))
          (fun _ => some (PFloat.fin 1)))).toFinset
    ∧ ([("A", "B"), ("B", "A")].map
          (score_edge_pair_worker dfW mapW (fun _ _ => none)) :
            Multiset (String × String × PFloat × Int × Int)) =
        ([("B", "A"), ("A", "B")].map
          (score_edge_pair_worker dfW mapW (fun _ _ => none)) :
            Multiset (String × String × PFloat × Int × Int)) :=
  ⟨C7_determinism_order_independence.1 Int [0, 1] (fun x y => some (x + y))
      (fun _ => some (PFloat.fin 1)) [(0, 1), (1, 0)] [(1, 0), (0, 1)] (by decide),
   C7_determinism_order_independence.2 dfW mapW (fun _ _ => none)
      [("A", "B"), ("B", "A")] [("B", "A"), ("A", "B")] (by decide)⟩

lemma nSales_nil (df : ParcelsDF) : nSales df [] = 0 := by
  unfold nSales
  split <;> rfl

lemma ns_lt3_of_empty (df : ParcelsDF) : nSales df (subRows df []) < 3 := by
  have h : subRows df [] = [] := rfl
  rw [h, nSales_nil]
  norm_num

lemma isfinite_fin (x : PFloat) (h : x.isfinite = true) : ∃ q, x = PFloat.fin q := by
  cases x with
  | fin q => exact ⟨q, rfl⟩
  | inf => simp [PFloat.isfinite] at h
  | ninf => simp [PFloat.isfinite] at h
  | nan => simp [PFloat.isfinite] at h

lemma clamp_fin (q : ℚ) :
    pymax (pymin (PFloat.fin q) (PFloat.fin 1)) (PFloat.fin (-1)) =
      PFloat.fin (max (min q 1) (-1)) := by
  by_cases h1 : (1 : ℚ) < q
  · have hmin : pymin (PFloat.fin q) (PFloat.fin 1) = PFloat.fin 1 := by
      simp [pymin, PFloat.lt, h1]
    rw [hmin]
    have hmax : pymax (PFloat.fin 1) (PFloat.fin (-1)) = PFloat.fin 1 := by
      simp [pymax, PFloat.lt]
    rw [hmax, min_eq_right h1.le, max_eq_left (by norm_num : (-1 : ℚ) ≤ 1)]
  · have hmin : pymin (PFloat.fin q) (PFloat.fin 1) = PFloat.fin q := by
      simp [pymin, PFloat.lt, h1]
    rw [hmin, min_eq_left (le_of_not_lt h1)]
    by_cases h2 : q < -1
    · have hmax : pymax (PFloat.fin q) (PFloat.fin (-1)) = PFloat.fin (-1) := by
        simp [pymax, PFloat.lt, h2]
      rw [hmax, max_eq_right h2.le]
    · have hmax : pymax (PFloat.fin q) (PFloat.fin (-1)) = PFloat.fin q := by
        simp [pymax, PFloat.lt, h2]
      rw [hmax, max_eq_left (le_of_not_lt h2)]

lemma clamp_zero :
    pymax (pymin (PFloat.fin 0) (PFloat.fin 1)) (PFloat.fin (-1)) = PFloat.fin 0 := by decide

lemma clamp_finitize_zero :
    pymax (pymin (if ¬ (PFloat.fin 0).isfinite = true then PFloat.fin 0 else PFloat.fin 0)
      (PFloat.fin 1)) (PFloat.fin (-1)) = PFloat.fin 0 := by decide

lemma bounds_clamped (x : PFloat) :
    ∃ q : ℚ, pymax (pymin (if ¬ x.isfinite = true then PFloat.fin 0 else x)
        (PFloat.fin 1)) (PFloat.fin (-1)) = PFloat.fin q ∧ -1 ≤ q ∧ q ≤ 1 := by
  by_cases hf : x.isfinite = true
  · obtain ⟨q, rfl⟩ := isfinite_fin x hf
    rw [if_neg (fun hc => hc hf), clamp_fin]
    exact ⟨max (min q 1) (-1), rfl, le_max_right _ _,
      max_le (le_trans (min_le_right q 1) le_rfl) (by norm_num)⟩
  · rw [if_pos hf, clamp_zero]
    exact ⟨0, rfl, by norm_num, by norm_num⟩

lemma workerFitR2_of_ssTot_nonpos
    (lstsq : List (List PFloat) → List PFloat → Option (List PFloat))
    (y : List PFloat) (Xd : List (List PFloat))
    (h : (ssTotP y).le (PFloat.fin 0) = true) :
    workerFitR2 lstsq y Xd = PFloat.fin 0 := by
  unfold workerFitR2
  cases lstsq Xd y with
  | none => rfl
  | some beta =>
    show (if beta.length = 3 then
        (if (ssTotP y).le (PFloat.fin 0) = true then PFloat.fin 0
         else (PFloat.fin 1).sub
           ((ssResP y (Xd.map (fun row => dotP row beta))).div (ssTotP y)))
      else PFloat.fin 0) = PFloat.fin 0
    by_cases hb : beta.length = 3
    · rw [if_pos hb, if_pos h]
    · rw [if_neg hb]

/-! ## Claim C5 -/

/-- C5: branch semantics of the edge-scoring worker.  With an empty
gathered union it returns (a, b, 0.0, 0, 0); when gathering succeeds
(every index in range) and the sale count is below 3, or a required
regression column is absent, or fewer than 3 complete rows survive
dropna, it returns r2 = 0.0 with n_obs the raw gathered count and
n_sales the sale count; on the successful fit path n_obs is the number
of complete rows used in the fit, not the raw gathered count. -/
theorem C5_worker_branch_semantics :
    ∀ (df : ParcelsDF) (mapping : List (String × List Nat))
      (lstsq : List (List PFloat) → List PFloat → Option (List PFloat))
      (pair : String × String),
      (gatherIdxs mapping pair.1 pair.2 = [] →
        score_edge_pair_worker df mapping lstsq pair =
          (pair.1, pair.2, PFloat.fin 0, 0, 0))
      ∧ ((∀ i ∈ gatherIdxs mapping pair.1 pair.2, i < df.rows.length) →
          nSales df (subRows df (gatherIdxs mapping pair.1 pair.2)) < 3 →
          score_edge_pair_worker df mapping lstsq pair =
            (pair.1, pair.2, PFloat.fin 0,
             ((subRows df (gatherIdxs mapping pair.1 pair.2)).length : Int),
             nSales df (subRows df (gatherIdxs mapping pair.1 pair.2))))
      ∧ ((∀ i ∈ gatherIdxs mapping pair.1 pair.2, i < df.rows.length) →
          ¬ (df.has_market_value_proxy ∧ df.has_built_area_sqft ∧ df.has_land_area_sqft) →
          score_edge_pair_worker df mapping lstsq pair =
            (pair.1, pair.2, PFloat.fin 0,
             ((subRows df (gatherIdxs mapping pair.1 pair.2)).length : Int),
             nSales df (subRows df (gatherIdxs mapping pair.1 pair.2))))
      ∧ ((∀ i ∈ gatherIdxs mapping pair.1 pair.2, i < df.rows.length) →
          (completeRows (subRows df (gatherIdxs mapping pair.1 pair.2))).length < 3 →
          score_edge_pair_worker df mapping lstsq pair =
            (pair.1, pair.2, PFloat.fin 0,
             ((subRows df (gatherIdxs mapping pair.1 pair.2)).length : Int),
             nSales df (subRows df (gatherIdxs mapping pair.1 pair.2))))
      ∧ ((∀ i ∈ gatherIdxs mapping pair.1 pair.2, i < df.rows.length) →
          ¬ nSales df (subRows df (gatherIdxs mapping pair.1 pair.2)) < 3 →
          (df.has_market_value_proxy ∧ df.has_built_area_sqft ∧ df.has_land_area_sqft) →
          ¬ (completeRows (subRows df (gatherIdxs mapping pair.1 pair.2))).length < 3 →
          (score_edge_pair_worker df mapping lstsq pair).2.2.2.1 =
            ((completeRows (subRows df (gatherIdxs mapping pair.1 pair.2))).length : Int)) := by
  intro df mapping lstsq pair
  refine ⟨?_, ?_, ?_, ?_, ?_⟩
  · intro h
    simp only [score_edge_pair_worker]
    rw [if_pos h]
  · intro hin hns
    by_cases h0 : gatherIdxs mapping pair.1 pair.2 = []
    · simp only [score_edge_pair_worker]
      rw [if_pos h0, h0]
      simp [subRows, nSales_nil]
    · simp only [score_edge_pair_worker]
      rw [if_neg h0, if_neg (fun hc => hc hin), if_pos hns]
  · intro hin hcols
    by_cases h0 : gatherIdxs mapping pair.1 pair.2 = []
    · simp only [score_edge_pair_worker]
      rw [if_pos h0, h0]
      simp [subRows, nSales_nil]
    · by_cases h3 : nSales df (subRows df (gatherIdxs mapping pair.1 pair.2)) < 3
      · simp only [score_edge_pair_worker]
        rw [if_neg h0, if_neg (fun hc => hc hin), if_pos h3]
      · simp only [score_edge_pair_worker]
        rw [if_neg h0, if_neg (fun hc => hc hin), if_neg h3, if_pos hcols]
  · intro hin hcomp
    by_cases h0 : gatherIdxs mapping pair.1 pair.2 = []
    · simp only [score_edge_pair_worker]
      rw [if_pos h0, h0]
      simp [subRows, nSales_nil]
    · by_cases h3 : nSales df (subRows df (gatherIdxs mapping pair.1 pair.2)) < 3
      · simp only [score_edge_pair_worker]
        rw [if_neg h0, if_neg (fun hc => hc hin), if_pos h3]
      · by_cases hc : df.has_market_value_proxy ∧ df.has_built_area_sqft ∧ df.has_land_area_sqft
        · simp only [score_edge_pair_worker]
          rw [if_neg h0, if_neg (fun hcc => hcc hin), if_neg h3,
            if_neg (fun hcc => hcc hc), if_pos hcomp]
        · simp only [score_edge_pair_worker]
          rw [if_neg h0, if_neg (fun hcc => hcc hin), if_neg h3, if_pos hc]
  · intro hin hns hcols hcomp
    have h0 : gatherIdxs mapping pair.1 pair.2 ≠ [] := by
      intro he
      exact hns (by rw [he]; exact ns_lt3_of_empty df)
    simp only [score_edge_pair_worker]
    rw [if_neg h0, if_neg (fun hc => hc hin), if_neg hns, if_neg (fun hc => hc hcols),
      if_neg hcomp]

/-- Witness for C5: an empty union on an empty mapping, and the success
path on a three-row frame. -/
theorem C5_worker_branch_semantics_witness :
    score_edge_pair_worker dfW [] (fun _ _ => none) ("A", "B") =
      ("A", "B", PFloat.fin 0, 0, 0)
    ∧ (score_edge_pair_worker dfW mapW (fun _ _ => none) ("A", "B")).2.2.2.1 =
        ((completeRows (subRows dfW (gatherIdxs mapW "A" "B"))).length : Int) :=
  ⟨(C5_worker_branch_semantics dfW [] (fun _ _ => none) ("A", "B")).1 rfl,
   (C5_worker_branch_semantics dfW mapW (fun _ _ => none) ("A", "B")).2.2.2.2
     (by decide) (by decide) (by decide) (by decide)⟩

/-! ## Claim C6 -/

/-- C6: the edge-scoring worker is total (it is a function, never
raising) and its r2 is always a finite value in [-1, 1]; r2 is exactly
0.0 whenever the sale count is below 3 or a required column is missing,
whenever the total sum of squares of the fitted target is <= 0, and
whenever the inline fit produces a non-finite value; and an unexpected
failure (an out-of-range gathered index, i.e. `iloc` raising) is
converted to the safe default with the pair identifiers preserved. -/
theorem C6_worker_r2_safety :
    ∀ (df : ParcelsDF) (mapping : List (String × List Nat))
      (lstsq : List (List PFloat) → List PFloat → Option (List PFloat))
      (pair : String × String),
      (∃ q : ℚ, (score_edge_pair_worker df mapping lstsq pair).2.2.1 = PFloat.fin q ∧
        -1 ≤ q ∧ q ≤ 1)
      ∧ (nSales df (subRows df (gatherIdxs mapping pair.1 pair.2)) < 3 →
          (score_edge_pair_worker df mapping lstsq pair).2.2.1 = PFloat.fin 0)
      ∧ (¬ (df.has_market_value_proxy ∧ df.has_built_area_sqft ∧ df.has_land_area_sqft) →
          (score_edge_pair_worker df mapping lstsq pair).2.2.1 = PFloat.fin 0)
      ∧ ((ssTotP ((completeRows (subRows df (gatherIdxs mapping pair.1 pair.2))).map
            (fun r => r.market_value_proxy.getD PFloat.nan))).le (PFloat.fin 0) = true →
          (score_edge_pair_worker df mapping lstsq pair).2.2.1 = PFloat.fin 0)
      ∧ ((workerFitR2 lstsq
            ((completeRows (subRows df (gatherIdxs mapping pair.1 pair.2))).map
              (fun r => r.market_value_proxy.getD PFloat.nan))
            ((completeRows (subRows df (gatherIdxs mapping pair.1 pair.2))).map
              (fun r => [PFloat.fin 1, r.built_area_sqft.getD PFloat.nan,
                r.land_area_sqft.getD PFloat.nan]))).isfinite = false →
          (score_edge_pair_worker df mapping lstsq pair).2.2.1 = PFloat.fin 0)
      ∧ (¬ (∀ i ∈ gatherIdxs mapping pair.1 pair.2, i < df.rows.length) →
          score_edge_pair_worker df mapping lstsq pair =
            (pair.1, pair.2, PFloat.fin 0, 0, 0)) := by
  intro df mapping lstsq pair
  refine ⟨?_, ?_, ?_, ?_, ?_, ?_⟩
  · simp only [score_edge_pair_worker]
    by_cases h0 : gatherIdxs mapping pair.1 pair.2 = []
    · rw [if_pos h0]
      exact ⟨0, rfl, by norm_num, by norm_num⟩
    · rw [if_neg h0]
      by_cases hoob : ¬ (∀ i ∈ gatherIdxs mapping pair.1 pair.2, i < df.rows.length)
      · rw [if_pos hoob]
        exact ⟨0, rfl, by norm_num, by norm_num⟩
      · rw [if_neg hoob]
        by_cases h3 : nSales df (subRows df (gatherIdxs mapping pair.1 pair.2)) < 3
        · rw [if_pos h3]
          exact ⟨0, rfl, by norm_num, by norm_num⟩
        · rw [if_neg h3]
          by_cases hc : ¬ (df.has_market_value_proxy ∧ df.has_built_area_sqft ∧
              df.has_land_area_sqft)
          · rw [if_pos hc]
            exact ⟨0, rfl, by norm_num, by norm_num⟩
          · rw [if_neg hc]
            by_cases hcmp :
                (completeRows (subRows df (gatherIdxs mapping pair.1 pair.2))).length < 3
            · rw [if_pos hcmp]
              exact ⟨0, rfl, by norm_num, by norm_num⟩
            · rw [if_neg hcmp]
              exact bounds_clamped _
  · intro hns
    simp only [score_edge_pair_worker]
    by_cases h0 : gatherIdxs mapping pair.1 pair.2 = []
    · rw [if_pos h0]
    · rw [if_neg h0]
      by_cases hoob : ¬ (∀ i ∈ gatherIdxs mapping pair.1 pair.2, i < df.rows.length)
      · rw [if_pos hoob]
      · rw [if_neg hoob, if_pos hns]
  · intro hcols
    simp only [score_edge_pair_worker]
    by_cases h0 : gatherIdxs mapping pair.1 pair.2 = []
    · rw [if_pos h0]
    · rw [if_neg h0]
      by_cases hoob : ¬ (∀ i ∈ gatherIdxs mapping pair.1 pair.2, i < df.rows.length)
      · rw [if_pos hoob]
      · rw [if_neg hoob]
        by_cases h3 : nSales df (subRows df (gatherIdxs mapping pair.1 pair.2)) < 3
        · rw [if_pos h3]
        · rw [if_neg h3, if_pos hcols]
  · intro ht
    simp only [score_edge_pair_worker]
    by_cases h0 : gatherIdxs mapping pair.1 pair.2 = []
    · rw [if_pos h0]
    · rw [if_neg h0]
      by_cases hoob : ¬ (∀ i ∈ gatherIdxs mapping pair.1 pair.2, i < df.rows.length)
      · rw [if_pos hoob]
      · rw [if_neg hoob]
        by_cases h3 : nSales df (subRows df (gatherIdxs mapping pair.1 pair.2)) < 3
        · rw [if_pos h3]
        · rw [if_neg h3]
          by_cases hc : ¬ (df.has_market_value_proxy ∧ df.has_built_area_sqft ∧
              df.has_land_area_sqft)
          · rw [if_pos hc]
          · rw [if_neg hc]
            by_cases hcmp :
                (completeRows (subRows df (gatherIdxs mapping pair.1 pair.2))).length < 3
            · rw [if_pos hcmp]
            · rw [if_neg hcmp, workerFitR2_of_ssTot_nonpos _ _ _ ht]
              exact clamp_finitize_zero
  · intro hnf
    simp only [score_edge_pair_worker]
    by_cases h0 : gatherIdxs mapping pair.1 pair.2 = []
    · rw [if_pos h0]
    · rw [if_neg h0]
      by_cases hoob : ¬ (∀ i ∈ gatherIdxs mapping pair.1 pair.2, i < df.rows.length)
      · rw [if_pos hoob]
      · rw [if_neg hoob]
        by_cases h3 : nSales df (subRows df (gatherIdxs mapping pair.1 pair.2)) < 3
        · rw [if_pos h3]
        · rw [if_neg h3]
          by_cases hc : ¬ (df.has_market_value_proxy ∧ df.has_built_area_sqft ∧
              df.has_land_area_sqft)
          · rw [if_pos hc]
          · rw [if_neg hc]
            by_cases hcmp :
                (completeRows (subRows df (gatherIdxs mapping pair.1 pair.2))).length < 3
            · rw [if_pos hcmp]
            · rw [if_neg hcmp, if_pos (fun hcc => by rw [hnf] at hcc; exact Bool.false_ne_true hcc)]
              exact clamp_zero
  · intro hoob
    simp only [score_edge_pair_worker]
    by_cases h0 : gatherIdxs mapping pair.1 pair.2 = []
    · rw [if_pos h0]
    · rw [if_neg h0, if_pos hoob]

/-- A parcels frame with only two rows (so only two sale prices). -/
def dfW2 : ParcelsDF := ⟨true, true, true, true, [rowW, rowW]⟩

/-- A mapping naming an out-of-range parcel index. -/
def mapOob : List (String × List Nat) := [("A", [5])]

/-- Witness for C6: bounds on the success path, the zero default below
the sale threshold, and the safe default on an out-of-range index. -/
theorem C6_worker_r2_safety_witness :
    (∃ q : ℚ, (score_edge_pair_worker dfW mapW (fun _ _ => none) ("A", "B")).2.2.1 =
        PFloat.fin q ∧ -1 ≤ q ∧ q ≤ 1)
    ∧ (score_edge_pair_worker dfW2 [("A", [0]), ("B", [1])] (fun _ _ => none)
        ("A", "B")).2.2.1 = PFloat.fin 0
    ∧ score_edge_pair_worker dfW mapOob (fun _ _ => none) ("A", "B") =
        ("A", "B", PFloat.fin 0, 0, 0) :=
  ⟨(C6_worker_r2_safety dfW mapW (fun _ _ => none) ("A", "B")).1,
   (C6_worker_r2_safety dfW2 [("A", [0]), ("B", [1])] (fun _ _ => none) ("A", "B")).2.1
     (by decide),
   (C6_worker_r2_safety dfW mapOob (fun _ _ => none) ("A", "B")).2.2.2.2.2
     (by decide)⟩

/-! ## Claim C10 -/

/-- C10: on the worker's successful-gather path, the r2 the worker
computes inline is exactly `ols_r2` applied to the same target vector y
and design matrix X (the worker's intercept-augmented matrix is
`ols_r2`'s `column_stack` of ones with X): both zero out a raised solve,
a non-positive total sum of squares and a non-finite result, and both
clamp to [-1, 1].  The equivalence is stated for solver outcomes whose
coefficient vector has the conforming length 3 (as `np.linalg.lstsq`
always returns for a three-column system); a nonconforming vector would
make `ols_r2` itself raise in `X_.dot(beta)`. -/
theorem C10_worker_inline_r2_matches_ols_r2 :
    ∀ (df : ParcelsDF) (mapping : List (String × List Nat))
      (lstsq : List (List PFloat) → List PFloat → Option (List PFloat))
      (pair : String × String),
      (∀ i ∈ gatherIdxs mapping pair.1 pair.2, i < df.rows.length) →
      ¬ nSales df (subRows df (gatherIdxs mapping pair.1 pair.2)) < 3 →
      (df.has_market_value_proxy ∧ df.has_built_area_sqft ∧ df.has_land_area_sqft) →
      ¬ (completeRows (subRows df (gatherIdxs mapping pair.1 pair.2))).length < 3 →
      (lstsq ((completeRows (subRows df (gatherIdxs mapping pair.1 pair.2))).map
          (fun r => [PFloat.fin 1, r.built_area_sqft.getD PFloat.nan,
            r.land_area_sqft.getD PFloat.nan]))
        ((completeRows (subRows df (gatherIdxs mapping pair.1 pair.2))).map
          (fun r => r.market_value_proxy.getD PFloat.nan)) = none ∨
        ∃ beta, lstsq ((completeRows (subRows df (gatherIdxs mapping pair.1 pair.2))).map
            (fun r => [PFloat.fin 1, r.built_area_sqft.getD PFloat.nan,
              r.land_area_sqft.getD PFloat.nan]))
          ((completeRows (subRows df (gatherIdxs mapping pair.1 pair.2))).map
            (fun r => r.market_value_proxy.getD PFloat.nan)) = some beta ∧
          beta.length = 3) →
      (score_edge_pair_worker df mapping lstsq pair).2.2.1 =
        ols_r2 lstsq
          ((completeRows (subRows df (gatherIdxs mapping pair.1 pair.2))).map
            (fun r => r.market_value_proxy.getD PFloat.nan))
          ((completeRows (subRows df (gatherIdxs mapping pair.1 pair.2))).map
            (fun r => [r.built_area_sqft.getD PFloat.nan,
              r.land_area_sqft.getD PFloat.nan])) := by
  intro df mapping lstsq pair hin hns hcols hcomp hsolver
  have h0 : gatherIdxs mapping pair.1 pair.2 ≠ [] := by
    intro he
    exact hns (by rw [he]; exact ns_lt3_of_empty df)
  have hX : ((completeRows (subRows df (gatherIdxs mapping pair.1 pair.2))).map
      (fun r => [r.built_area_sqft.getD PFloat.nan,
        r.land_area_sqft.getD PFloat.nan])).map (fun row => PFloat.fin 1 :: row) =
      (completeRows (subRows df (gatherIdxs mapping pair.1 pair.2))).map
        (fun r => [PFloat.fin 1, r.built_area_sqft.getD PFloat.nan,
          r.land_area_sqft.getD PFloat.nan]) := by
    rw [List.map_map]
    rfl
  simp only [score_edge_pair_worker, ols_r2, workerFitR2]
  rw [if_neg h0, if_neg (fun hc => hc hin), if_neg hns, if_neg (fun hc => hc hcols),
    if_neg hcomp, hX]
  rcases hsolver with hs | ⟨beta, hs, hb⟩
  · simp only [hs]
    exact clamp_finitize_zero
  · simp only [hs]
    rw [if_pos hb]
    by_cases ht : (ssTotP ((completeRows (subRows df
        (gatherIdxs mapping pair.1 pair.2))).map
          (fun r => r.market_value_proxy.getD PFloat.nan))).le (PFloat.fin 0) = true
    · rw [if_pos ht, if_pos ht]
      exact clamp_finitize_zero
    · rw [if_neg ht, if_neg ht]
      by_cases hf : ((PFloat.fin 1).sub
          ((ssResP ((completeRows (subRows df (gatherIdxs mapping pair.1 pair.2))).map
              (fun r => r.market_value_proxy.getD PFloat.nan))
            (((completeRows (subRows df (gatherIdxs mapping pair.1 pair.2))).map
              (fun r => [PFloat.fin 1, r.built_area_sqft.getD PFloat.nan,
                r.land_area_sqft.getD PFloat.nan])).map
              (fun row => dotP row beta))).div
            (ssTotP ((completeRows (subRows df (gatherIdxs mapping pair.1 pair.2))).map
              (fun r => r.market_value_proxy.getD PFloat.nan))))).isfinite = true
      · rw [if_neg (fun hc => hc hf), if_neg (fun hc => hc hf)]
      · rw [if_pos hf, if_pos hf]
        exact clamp_zero

/-- Witness for C10 with a raising solver and with a solver returning a
conforming zero coefficient vector. -/
theorem C10_worker_inline_r2_matches_ols_r2_witness :
    (score_edge_pair_worker dfW mapW (fun _ _ => none) ("A", "B")).2.2.1 =
      ols_r2 (fun _ _ => none)
        ((completeRows (subRows dfW (gatherIdxs mapW "A" "B"))).map
          (fun r => r.market_value_proxy.getD PFloat.nan))
        ((completeRows (subRows dfW (gatherIdxs mapW "A" "B"))).map
          (fun r => [r.built_area_sqft.getD PFloat.nan,
            r.land_area_sqft.getD PFloat.nan]))
    ∧ (score_edge_pair_worker dfW mapW
          (fun _ _ => some [PFloat.fin 0, PFloat.fin 0, PFloat.fin 0]) ("A", "B")).2.2.1 =
        ols_r2 (fun _ _ => some [PFloat.fin 0, PFloat.fin 0, PFloat.fin 0])
          ((completeRows (subRows dfW (gatherIdxs mapW "A" "B"))).map
            (fun r => r.market_value_proxy.getD PFloat.nan))
          ((completeRows (subRows dfW (gatherIdxs mapW "A" "B"))).map
            (fun r => [r.built_area_sqft.getD PFloat.nan,
              r.land_area_sqft.getD PFloat.nan])) :=
  ⟨C10_worker_inline_r2_matches_ols_r2 dfW mapW (fun _ _ => none) ("A", "B")
     (by decide) (by decide) (by decide) (by decide) (Or.inl rfl),
   C10_worker_inline_r2_matches_ols_r2 dfW mapW
     (fun _ _ => some [PFloat.fin 0, PFloat.fin 0, PFloat.fin 0]) ("A", "B")
     (by decide) (by decide) (by decide) (by decide)
     (Or.inr ⟨[PFloat.fin 0, PFloat.fin 0, PFloat.fin 0], rfl, rfl⟩)⟩
